import Mathlib

/-!
Shallow embedding of `src/img_to_cookie_svg.py` (OpenSCADCookieCutter).

The script converts a raster image into layered SVG documents plus an
OpenSCAD metadata file.  Pure per-pixel operations (`cv2.threshold`,
`cv2.bitwise_and`), morphology (`cv2.dilate`, `cv2.erode`), the
bounding-box reducer (`bbox_from_polys`), the region selector
(Python `max(..., key=cv2.contourArea)`), the path serializers and the
`main` control flow are embedded directly.  Opaque OpenCV calls whose
output is consumed as data (`cv2.findContours`, `cv2.approxPolyDP`,
`cv2.arcLength`, `cv2.GaussianBlur`, `cv2.drawContours` fill sets) are
abstracted as fields of a `CvOps` record; theorems quantify over them.

Machine integers: pixels are 8-bit values embedded as `ℕ` (the script
only ever produces 0 and 255 through thresholding, so no overflow
arithmetic arises); contour coordinates are embedded as `ℚ`
(`cv2.contourArea` and the float formatting are exact on the integer
coordinates the script manipulates).
-/

/-- 8-bit grayscale intensity, embedded as `ℕ`. -/
abbrev Pixel := ℕ

/-- A pixel buffer / mask, as an intensity function on integer coordinates. -/
abbrev Grid := ℤ → ℤ → Pixel

/-- A 2-D point with rational coordinates. -/
abbrev Point := ℚ × ℚ

/-- A polygonal contour: ordered point sequence, implicitly closed. -/
abbrev Contour := List Point

/-- Opaque OpenCV primitives used by the script.  Each field stands for a
library call whose result the script consumes as plain data:
`cv2.GaussianBlur`, `cv2.findContours` with `RETR_EXTERNAL` resp.
`RETR_TREE` (the `find_contours` wrapper returns the contour list; the
hierarchy component is never used downstream), `cv2.arcLength`,
`cv2.approxPolyDP`, and the pixel set painted by `cv2.drawContours`
with `thickness=cv2.FILLED, color=255` for one contour. -/
structure CvOps where
  gaussianBlur : ℕ → Grid → Grid
  traceExternal : Grid → List Contour
  traceTree : Grid → List Contour
  arcLength : Contour → ℚ
  approxPolyDP : Contour → ℚ → Contour
  fillPoly : Contour → ℤ → ℤ → Bool

/-- Cyclic shoelace sum of a contour (`cv2.contourArea` is Green's
formula over the closed point sequence). -/
def shoelace : Contour → ℚ
  | [] => 0
  | p :: ps => (List.zip (p :: ps) (ps ++ [p])).foldl
      (fun s pq => s + (pq.1.1 * pq.2.2 - pq.2.1 * pq.1.2)) 0

/-- `cv2.contourArea` with default `oriented=False`: absolute area. -/
def contourArea (c : Contour) : ℚ := |shoelace c| / 2

/-- One step of CPython's `max(..., key=...)` loop: the candidate `a`
replaces the current best `b` only when its key is strictly greater,
so the first-encountered maximum is kept on ties. -/
def pyMaxStep (key : α → ℚ) (b a : α) : α :=
  if key b < key a then a else b

/-- Python `max(l, key=...)`, `none` on the empty list. -/
def pyMax (key : α → ℚ) : List α → Option α
  | [] => none
  | x :: xs => some (xs.foldl (pyMaxStep key) x)

/-- `simplify_contour` (src lines 79-84): `approxPolyDP` with
`epsilon = factor * arcLength(contour)`. -/
def simplify_contour (ops : CvOps) (contour : Contour) (factor : ℚ) : Contour :=
  ops.approxPolyDP contour (factor * ops.arcLength contour)

/-- Offsets of an `n × n` all-ones structuring element
(`np.ones((n,n))`), anchored at the OpenCV default center `n / 2`. -/
def squareKernel (n : ℕ) : List (ℤ × ℤ) :=
  (List.range n).flatMap fun i =>
    (List.range n).map fun j => ((i : ℤ) - ((n / 2 : ℕ) : ℤ), (j : ℤ) - ((n / 2 : ℕ) : ℤ))

/-- One dilation pass: per-pixel maximum of the source over the
structuring element (8-bit neutral element 0 outside the kernel). -/
def dilateStep (K : List (ℤ × ℤ)) (m : Grid) : Grid :=
  fun x y => (K.map fun o => m (x + o.1) (y + o.2)).foldr max 0

/-- One erosion pass: per-pixel minimum of the source over the
structuring element (8-bit neutral element 255 outside the kernel). -/
def erodeStep (K : List (ℤ × ℤ)) (m : Grid) : Grid :=
  fun x y => (K.map fun o => m (x + o.1) (y + o.2)).foldr min 255

/-- `cv2.dilate(src, kernel, iterations=n)`: `n` dilation passes;
OpenCV's `morphOp` copies the source unchanged when `iterations = 0`. -/
def dilate (src : Grid) (K : List (ℤ × ℤ)) (iterations : ℕ) : Grid :=
  (dilateStep K)^[iterations] src

/-- `cv2.erode(src, kernel, iterations=n)`: `n` erosion passes;
OpenCV's `morphOp` copies the source unchanged when `iterations = 0`. -/
def erode (src : Grid) (K : List (ℤ × ℤ)) (iterations : ℕ) : Grid :=
  (erodeStep K)^[iterations] src

/-- `cv2.threshold(v, t, 255, cv2.THRESH_BINARY)` per pixel:
255 when `v > t`, else 0. -/
def threshBinary (v t : Pixel) : Pixel :=
  if t < v then 255 else 0

/-- `cv2.threshold(v, t, 255, cv2.THRESH_BINARY_INV)` per pixel:
0 when `v > t`, else 255. -/
def threshBinaryInv (v t : Pixel) : Pixel :=
  if t < v then 0 else 255

/-- `cv2.bitwise_not` on an 8-bit value. -/
def bitwise_not8 (v : Pixel) : Pixel := 255 - v

/-- `binarize` (src lines 55-66).  Dead code in the script: `main`
thresholds directly and never calls it. -/
def binarize (ops : CvOps) (img_gray : Grid) (thresh_val : Pixel) (blur_k : ℕ)
    (invert : Bool) : Grid :=
  let g := if blur_k ≠ 0 ∧ 0 < blur_k ∧ blur_k % 2 = 1 then ops.gaussianBlur blur_k img_gray
           else img_gray
  let binary : Grid := fun x y => threshBinaryInv (g x y) thresh_val
  if invert then fun x y => bitwise_not8 (binary x y) else binary

/-- `shape_mask` before dilation (src lines 276-278): inverted
threshold of the grayscale image. -/
def shape_mask (img : Grid) (t : Pixel) : Grid :=
  fun x y => threshBinaryInv (img x y) t

/-- `shape_mask` after the optional dilation (src lines 281-284):
one dilation pass with a `(2*offset+1)`-square kernel when
`outline_offset > 0`. -/
def shape_mask_dilated (img : Grid) (t : Pixel) (outline_offset : ℕ) : Grid :=
  if 0 < outline_offset then
    dilate (shape_mask img t) (squareKernel (max 1 (outline_offset * 2 + 1))) 1
  else shape_mask img t

/-- `silhouette_mask` (src lines 290-305): zeros canvas on which
`cv2.drawContours` painted value 255 on the pixel set `inside`. -/
def silhouette_mask (inside : ℤ → ℤ → Bool) : Grid :=
  fun x y => if inside x y then 255 else 0

/-- `white_mask` (src lines 312-314): direct threshold of the image. -/
def white_mask (img : Grid) (t : Pixel) : Grid :=
  fun x y => threshBinary (img x y) t

/-- `white_inside` (src line 317): per-pixel `cv2.bitwise_and` of the
white mask with the silhouette mask. -/
def white_inside (img : Grid) (t : Pixel) (inside : ℤ → ℤ → Bool) : Grid :=
  fun x y => Nat.land (white_mask img t x y) (silhouette_mask inside x y)

/-- `white_inside_eroded` (src lines 320-321): erosion with a 3×3
ones kernel and `iterations=0`. -/
def white_inside_eroded (img : Grid) (t : Pixel) (inside : ℤ → ℤ → Bool) : Grid :=
  erode (white_inside img t inside) (squareKernel 3) 0

/-- `float("inf")`-seeded running minimum: `none` plays +∞. -/
def minO (o : Option ℚ) (q : ℚ) : Option ℚ :=
  match o with
  | none => some q
  | some m => some (min m q)

/-- `float("-inf")`-seeded running maximum: `none` plays −∞. -/
def maxO (o : Option ℚ) (q : ℚ) : Option ℚ :=
  match o with
  | none => some q
  | some m => some (max m q)

/-- Accumulator of `bbox_from_polys`: the four running extrema
(initialized to ±∞, i.e. `none`) and the `n_points` counter. -/
structure BBoxAcc where
  min_x : Option ℚ
  min_y : Option ℚ
  max_x : Option ℚ
  max_y : Option ℚ
  n_points : ℕ
deriving DecidableEq

/-- Initial accumulator: `inf, inf, -inf, -inf, 0`. -/
def bboxInit : BBoxAcc := ⟨none, none, none, none, 0⟩

/-- Folding one `(x, y)` point into the running extrema. -/
def bboxAddPoint (acc : BBoxAcc) (p : Point) : BBoxAcc :=
  ⟨minO acc.min_x p.1, minO acc.min_y p.2,
   maxO acc.max_x p.1, maxO acc.max_y p.2, acc.n_points + 1⟩

/-- Folding one polygon of the input list: `None` entries are skipped
(src lines 129-130); otherwise every point updates the extrema and the
counter (the per-array `xs.min()` fast path and the pair-iteration
fallback of the source compute the same pointwise fold). -/
def bboxAddPoly (acc : BBoxAcc) (poly : Option Contour) : BBoxAcc :=
  match poly with
  | none => acc
  | some pts => pts.foldl bboxAddPoint acc

/-- `bbox_from_polys` (src lines 113-166): raises `ValueError` when no
point was seen, else returns `(min_x, min_y, max_x, max_y)`. -/
def bbox_from_polys (polys : List (Option Contour)) : Except String (ℚ × ℚ × ℚ × ℚ) :=
  let acc := polys.foldl bboxAddPoly bboxInit
  if acc.n_points = 0 then Except.error ("bbox_from_polys: empty polygon/contour list")
  else Except.ok (acc.min_x.getD 0, acc.min_y.getD 0, acc.max_x.getD 0, acc.max_y.getD 0)

/-- All points of a polygon list in traversal order (`None` skipped). -/
def allPoints (polys : List (Option Contour)) : List Point :=
  (polys.filterMap id).flatten

/-- Specification-side running minimum of a list of rationals. -/
def listMin : List ℚ → Option ℚ
  | [] => none
  | q :: rest => some (rest.foldl min q)

/-- Specification-side running maximum of a list of rationals. -/
def listMax : List ℚ → Option ℚ
  | [] => none
  | q :: rest => some (rest.foldl max q)

/-- Python `"%0.2f"`-style rounding of `q * 100` to an integer (round
to nearest, ties to even, as float formatting does), computed by exact
integer arithmetic on the reduced fraction `q.num / q.den`. -/
def round2 (q : ℚ) : ℤ :=
  let N := 100 * q.num
  let D := (q.den : ℤ)
  let f := Int.fdiv N D
  let r2 := 2 * (N - f * D)
  if r2 < D then f
  else if D < r2 then f + 1
  else if f % 2 = 0 then f else f + 1

/-- Two-digit zero-padded decimal rendering of a value below 100. -/
def pad2 (n : ℕ) : String :=
  if n < 10 then "0" ++ toString n else toString n

/-- `f"{float(v):.2f}"`: fixed-point rendering with two decimals. -/
def fmt2 (q : ℚ) : String :=
  let n := round2 q
  (if n < 0 then "-" else "") ++ toString (n.natAbs / 100) ++ "." ++ pad2 (n.natAbs % 100)

/-- Python `" ".join`. -/
def joinSp : List String → String
  | [] => ""
  | a :: as => as.foldl (fun acc s => acc ++ " " ++ s) a

/-- `contour_to_path_d` (src lines 87-102): `""` on the empty contour,
else `"M x0,y0 L x1,y1 ... Z"` with two-decimal coordinates. -/
def contour_to_path_d (contour : Contour) : String :=
  match contour with
  | [] => ""
  | p :: rest =>
      joinSp ((("M " ++ fmt2 p.1 ++ "," ++ fmt2 p.2) ::
        rest.map fun q => "L " ++ fmt2 q.1 ++ "," ++ fmt2 q.2) ++ ["Z"])

/-- One serialized `<path>` element with its render attributes. -/
structure SvgPath where
  d : String
  fill : String
  stroke : String
  fillRule : Option String
deriving DecidableEq

/-- One serialized SVG document: canvas size and path elements in
emission order. -/
structure SvgDoc where
  width : ℕ
  height : ℕ
  paths : List SvgPath
deriving DecidableEq

/-- Path elements of one layer of `create_svg` (src lines 186-194 and
201-209): unfilled black-stroked paths, empty `d` strings skipped. -/
def strokePaths (contours : List Contour) : List SvgPath :=
  contours.filterMap fun cnt =>
    let d := contour_to_path_d cnt
    if d = "" then none else some ⟨d, "none", "black", none⟩

/-- `create_svg` (src lines 169-213): outline layer paths followed by
detail layer paths. -/
def create_svg (width height : ℕ) (outline_contours detail_contours : List Contour) : SvgDoc :=
  ⟨width, height, strokePaths outline_contours ++ strokePaths detail_contours⟩

/-- `write_svg_single_group` (src lines 215-231): each contour as a
black-filled unstroked path, empty `d` strings skipped. -/
def write_svg_single_group (width height : ℕ) (contours : List Contour) : SvgDoc :=
  ⟨width, height,
   contours.filterMap fun cnt =>
     let d := contour_to_path_d cnt
     if d = "" then none else some ⟨d, "black", "none", none⟩⟩

/-- `contours_to_compound_path_d` (src lines 233-240): space-join of
the non-empty per-contour path strings, in input order. -/
def contours_to_compound_path_d (contours : List Contour) : String :=
  joinSp ((contours.map contour_to_path_d).filter fun d => d ≠ "")

/-- `write_svg_detail_evenodd` (src lines 242-259): one black-filled
unstroked compound path with `fill-rule: evenodd`, omitted when the
compound `d` string is empty. -/
def write_svg_detail_evenodd (width height : ℕ) (contours : List Contour) : SvgDoc :=
  ⟨width, height,
   let d := contours_to_compound_path_d contours
   if d = "" then [] else [⟨d, "black", "none", some ("evenodd")⟩]⟩

/-- Command-line arguments of `parse_args` (src lines 26-44). -/
structure Args where
  threshold : Pixel
  invert : Bool
  blur : ℕ
  outline_offset : ℕ
  simplify : ℚ
  min_area : ℚ
  debug : Bool
deriving DecidableEq

/-- Region-selection stage of `main` (src lines 289-305).  First
component: `outline_contours_filtered`; second component: the contour
list handed to `cv2.drawContours` to fill `silhouette_mask`.  On a
non-empty trace the largest contour (Python `max` by `contourArea`) is
simplified with the user factor and is the sole member of both. -/
def outline_phase (ops : CvOps) (simplifyFactor : ℚ) (outline_contours : List Contour) :
    List Contour × List Contour :=
  match pyMax contourArea outline_contours with
  | some largest =>
      let s := simplify_contour ops largest simplifyFactor
      ([s], [s])
  | none => ([], [])

/-- The traced external contours of the (possibly dilated) shape mask
(src line 287). -/
def traced_outline (ops : CvOps) (img : Grid) (a : Args) : List Contour :=
  ops.traceExternal (shape_mask_dilated img a.threshold a.outline_offset)

/-- Pixel set painted by `cv2.drawContours(silhouette_mask, fillList,
-1, 255, cv2.FILLED)`: union of the fill sets of the listed contours. -/
def inside_of (ops : CvOps) (fillList : List Contour) : ℤ → ℤ → Bool :=
  fun x y => fillList.any fun c => ops.fillPoly c x y

/-- The traced `RETR_TREE` contours of the eroded detail mask
(src lines 326-328). -/
def traced_detail (ops : CvOps) (img : Grid) (a : Args) : List Contour :=
  ops.traceTree (white_inside_eroded img a.threshold
    (inside_of ops (outline_phase ops a.simplify (traced_outline ops img a)).2))

/-- Detail filtering stage of `main` (src lines 330-341): drop contours
of area `< 2.0`, simplify the rest with the fixed factor `0.002`. -/
def detail_phase (ops : CvOps) (detail_contours : List Contour) : List Contour :=
  (detail_contours.filter fun c => ¬ contourArea c < 2).map
    fun c => simplify_contour ops c (0.002 : ℚ)

instance {ε α : Type} [DecidableEq ε] [DecidableEq α] : DecidableEq (Except ε α) :=
  fun a b =>
    match a, b with
    | Except.error e, Except.error f =>
        if h : e = f then isTrue (by rw [h]) else isFalse (by intro hc; cases hc; exact h rfl)
    | Except.ok u, Except.ok v =>
        if h : u = v then isTrue (by rw [h]) else isFalse (by intro hc; cases hc; exact h rfl)
    | Except.error _, Except.ok _ => isFalse (by intro hc; cases hc)
    | Except.ok _, Except.error _ => isFalse (by intro hc; cases hc)

/-- Observable outcome of one `main` run: the diagnostic warnings in
emission order, the three serialized documents (combined layered SVG,
outline-only SVG, even-odd detail SVG), and the metadata emission —
`ok (ART_W_U, ART_H_U)` when `bbox_from_polys` succeeded, `error`
for the uncaught `ValueError` that aborts the run otherwise. -/
structure RunResult where
  warnings : List String
  combinedDoc : SvgDoc
  outlineDoc : SvgDoc
  detailDoc : SvgDoc
  meta : Except String (ℚ × ℚ)
deriving DecidableEq

/-- `main` (src lines 262-379) after image loading, with canvas size
`w × h`.  `args.invert`, `args.blur`, `args.min_area` and `args.debug`
are never read, exactly as in the source (`binarize` is never called;
the detail filter hard-codes `area < 2.0`; debug only dumps PNGs). -/
def runMain (ops : CvOps) (img : Grid) (w h : ℕ) (a : Args) : RunResult :=
  let outline_contours := traced_outline ops img a
  let op := outline_phase ops a.simplify outline_contours
  let outline_contours_filtered := op.1
  let warn1 : List String :=
    if outline_contours = [] then ["WARNING: No outline contours found (no black region?)"]
    else []
  let detail_contours_filtered := detail_phase ops (traced_detail ops img a)
  let warn2 : List String :=
    if detail_contours_filtered = [] then
      ["WARNING: No detail contours found (white inside outline)."]
    else []
  { warnings := warn1 ++ warn2
    combinedDoc := create_svg w h outline_contours_filtered detail_contours_filtered
    outlineDoc := write_svg_single_group w h outline_contours_filtered
    detailDoc := write_svg_detail_evenodd w h detail_contours_filtered
    meta := (bbox_from_polys (outline_contours_filtered.map some)).map
      fun b => (b.2.2.1 - b.1, b.2.2.2 - b.2.1) }

/-- A mask value is binary when it is one of the sentinels 0 and 255. -/
def IsBin (v : Pixel) : Prop := v = 0 ∨ v = 255

instance (v : Pixel) : Decidable (IsBin v) := by
  unfold IsBin
  infer_instance

/-- Running minimum of a whole list folded onto an accumulator. -/
def minFold (o : Option ℚ) (l : List ℚ) : Option ℚ := l.foldl minO o

/-- Running maximum of a whole list folded onto an accumulator. -/
def maxFold (o : Option ℚ) (l : List ℚ) : Option ℚ := l.foldl maxO o

/-- Claim-side transformation for the translation-equivariance
property: add `(dx, dy)` to every point of every polygon. -/
def translate_polys (dx dy : ℚ) (polys : List (Option Contour)) : List (Option Contour) :=
  polys.map (Option.map (List.map fun p => (p.1 + dx, p.2 + dy)))

/-- A concrete `CvOps` instantiation used by closed witnesses and
counterexamples.  Tracing probes one pixel of its input mask, so an
all-background mask traces to the empty contour set (the degenerate
case the real `cv2.findContours` also exhibits); `approxPolyDP`
collapses a contour to a 2-point degenerate line once the tolerance
reaches 1 and is the identity below that; the fill set of a polygon
with at least 3 vertices is the whole plane while a degenerate
(< 3 vertex) polygon fills nothing. -/
def sampleOps : CvOps where
  gaussianBlur := fun _ m => m
  traceExternal := fun m => if m 0 0 = 255 then [[(0, 0), (4, 0), (4, 4), (0, 4)]] else []
  traceTree := fun m => if m 1 1 = 255 then [[(1, 1), (3, 1), (3, 3), (1, 3)]] else []
  arcLength := fun c => (c.length : ℚ)
  approxPolyDP := fun c eps => if 1 ≤ eps then c.take 2 else c
  fillPoly := fun c _ _ => decide (3 ≤ c.length)

/-- An all-white image: no pixel is dark, so binarization at any
threshold below 255 produces no foreground. -/
def whiteImg : Grid := fun _ _ => 255

/-- A black field with a white 3×3 interior window: the black region
traces to an outer square whose interior holds white detail. -/
def sqImg : Grid := fun x y => if 1 ≤ x ∧ x ≤ 3 ∧ 1 ≤ y ∧ y ≤ 3 then 255 else 0

/-- Default-like arguments with a given simplify factor, zero outline
offset (so no dilation pass runs in closed evaluations). -/
def cexArgs (sf : ℚ) : Args := ⟨180, false, 3, 0, sf, 50, false⟩

/-! ### Helper lemmas: binary sentinel values -/

theorem isBin_max {a b : Pixel} (ha : IsBin a) (hb : IsBin b) : IsBin (max a b) := by
  rcases ha with rfl | rfl <;> rcases hb with rfl | rfl <;> decide

theorem isBin_min {a b : Pixel} (ha : IsBin a) (hb : IsBin b) : IsBin (min a b) := by
  rcases ha with rfl | rfl <;> rcases hb with rfl | rfl <;> decide

theorem isBin_land {a b : Pixel} (ha : IsBin a) (hb : IsBin b) : IsBin (Nat.land a b) := by
  rcases ha with rfl | rfl <;> rcases hb with rfl | rfl <;> decide

theorem isBin_threshBinary (v t : Pixel) : IsBin (threshBinary v t) := by
  unfold threshBinary IsBin
  split
  · exact Or.inr rfl
  · exact Or.inl rfl

theorem isBin_threshBinaryInv (v t : Pixel) : IsBin (threshBinaryInv v t) := by
  unfold threshBinaryInv IsBin
  split
  · exact Or.inl rfl
  · exact Or.inr rfl

theorem isBin_foldr_max (l : List Pixel) (h : ∀ v ∈ l, IsBin v) : IsBin (l.foldr max 0) := by
  induction l with
  | nil => exact Or.inl rfl
  | cons v l ih =>
      rw [List.foldr_cons]
      exact isBin_max (h v (List.mem_cons_self v l))
        (ih fun u hu => h u (List.mem_cons_of_mem _ hu))

theorem isBin_foldr_min (l : List Pixel) (h : ∀ v ∈ l, IsBin v) : IsBin (l.foldr min 255) := by
  induction l with
  | nil => exact Or.inr rfl
  | cons v l ih =>
      rw [List.foldr_cons]
      exact isBin_min (h v (List.mem_cons_self v l))
        (ih fun u hu => h u (List.mem_cons_of_mem _ hu))

theorem isBin_dilateStep (K : List (ℤ × ℤ)) (m : Grid) (hm : ∀ x y, IsBin (m x y))
    (x y : ℤ) : IsBin (dilateStep K m x y) := by
  refine isBin_foldr_max _ fun v hv => ?hv
  obtain ⟨o, _, rfl⟩ := List.mem_map.1 hv
  exact hm _ _

theorem isBin_erodeStep (K : List (ℤ × ℤ)) (m : Grid) (hm : ∀ x y, IsBin (m x y))
    (x y : ℤ) : IsBin (erodeStep K m x y) := by
  refine isBin_foldr_min _ fun v hv => ?hv
  obtain ⟨o, _, rfl⟩ := List.mem_map.1 hv
  exact hm _ _

theorem isBin_dilate (m : Grid) (K : List (ℤ × ℤ)) (n : ℕ) (hm : ∀ x y, IsBin (m x y)) :
    ∀ x y, IsBin (dilate m K n x y) := by
  induction n generalizing m with
  | zero => exact hm
  | succ n ih =>
      intro x y
      rw [dilate, Function.iterate_succ_apply]
      exact ih (dilateStep K m) (isBin_dilateStep K m hm) x y

theorem isBin_erode (m : Grid) (K : List (ℤ × ℤ)) (n : ℕ) (hm : ∀ x y, IsBin (m x y)) :
    ∀ x y, IsBin (erode m K n x y) := by
  induction n generalizing m with
  | zero => exact hm
  | succ n ih =>
      intro x y
      rw [erode, Function.iterate_succ_apply]
      exact ih (erodeStep K m) (isBin_erodeStep K m hm) x y

/-! ### Claim theorems C4, C5, C6, C7 -/

/-- C4 counterexample: the claim says a pixel equal to the threshold
becomes background (foreground exactly when `v < t`), but
`cv2.THRESH_BINARY_INV` maps `v = t = 180` to foreground 255
(`shape_mask` of a constant-180 image at threshold 180 is all 255),
even though `180 < 180` fails. -/
theorem threshold_equal_value_foreground_cex :
    shape_mask (fun _ _ => 180) 180 0 0 = 255 ∧ ¬ (180 < 180) := by decide

/-- C4 amended: binarization maps a pixel value `v` to foreground 255
exactly when `v ≤ t` (darker than or equal to the threshold), and to
background 0 exactly when `t < v`; `shape_mask` applies exactly this
map pixelwise. -/
theorem threshBinaryInv_foreground_iff_le (img : Grid) (v t : Pixel) (x y : ℤ) :
    (threshBinaryInv v t = 255 ↔ v ≤ t) ∧ (threshBinaryInv v t = 0 ↔ t < v) ∧
    shape_mask img t x y = threshBinaryInv (img x y) t := by
  refine ⟨?h1, ?h2, rfl⟩
  · unfold threshBinaryInv
    split
    · next h => simp [Nat.not_le.2 h]
    · next h => simp [Nat.not_lt.1 h]
  · unfold threshBinaryInv
    split
    · next h => simp [h]
    · next h => simp [h]

/-- C5: the `--blur` and `--min-area` arguments are parsed but never
read by `main`: two runs on the same image differing only in those two
values produce byte-identical warnings, documents and metadata
(`binarize` is never called, so blur never happens; the detail filter
hard-codes `area < 2.0`). -/
theorem runMain_ignores_blur_and_min_area (ops : CvOps) (img : Grid) (w h : ℕ)
    (t : Pixel) (inv : Bool) (b₁ b₂ : ℕ) (off : ℕ) (sf : ℚ) (m₁ m₂ : ℚ) (dbg : Bool) :
    runMain ops img w h ⟨t, inv, b₁, off, sf, m₁, dbg⟩ =
      runMain ops img w h ⟨t, inv, b₂, off, sf, m₂, dbg⟩ := rfl

/-- C6: erosion with `iterations = 0` is the identity transform — for
every mask and every structuring element the result equals the input,
both extensionally and pixel-for-pixel. -/
theorem erode_zero_iterations_identity (src : Grid) (K : List (ℤ × ℤ)) :
    erode src K 0 = src ∧ ∀ x y, erode src K 0 x y = src x y :=
  ⟨rfl, fun _ _ => rfl⟩

/-- C7: every mask of the pipeline — the thresholded shape mask, its
dilated version, the filled silhouette mask, the white mask, the
per-pixel AND intersection and the eroded detail mask — holds only
the sentinel values 0 and 255 at every pixel. -/
theorem pipeline_masks_binary (img : Grid) (t : Pixel) (off : ℕ)
    (inside : ℤ → ℤ → Bool) (x y : ℤ) :
    IsBin (shape_mask img t x y) ∧ IsBin (shape_mask_dilated img t off x y) ∧
    IsBin (silhouette_mask inside x y) ∧ IsBin (white_mask img t x y) ∧
    IsBin (white_inside img t inside x y) ∧ IsBin (white_inside_eroded img t inside x y) := by
  have hshape : ∀ x y, IsBin (shape_mask img t x y) :=
    fun x y => isBin_threshBinaryInv (img x y) t
  have hsil : ∀ x y, IsBin (silhouette_mask inside x y) := by
    intro x y
    unfold silhouette_mask IsBin
    split
    · exact Or.inr rfl
    · exact Or.inl rfl
  have hwhite : ∀ x y, IsBin (white_mask img t x y) :=
    fun x y => isBin_threshBinary (img x y) t
  have hand : ∀ x y, IsBin (white_inside img t inside x y) :=
    fun x y => isBin_land (hwhite x y) (hsil x y)
  refine ⟨hshape x y, ?hdil, hsil x y, hwhite x y, hand x y, ?herode⟩
  · unfold shape_mask_dilated
    split
    · exact isBin_dilate _ _ 1 hshape x y
    · exact hshape x y
  · exact isBin_erode _ _ 0 hand x y

/-! ### Helper lemmas: bounding-box reducer -/

theorem minFold_some (m : ℚ) (l : List ℚ) : minFold (some m) l = some (l.foldl min m) := by
  induction l generalizing m with
  | nil => rfl
  | cons q l ih =>
      show minFold (some (min m q)) l = some ((q :: l).foldl min m)
      rw [List.foldl_cons]
      exact ih (min m q)

theorem maxFold_some (m : ℚ) (l : List ℚ) : maxFold (some m) l = some (l.foldl max m) := by
  induction l generalizing m with
  | nil => rfl
  | cons q l ih =>
      show maxFold (some (max m q)) l = some ((q :: l).foldl max m)
      rw [List.foldl_cons]
      exact ih (max m q)

theorem minFold_none (l : List ℚ) : minFold none l = listMin l := by
  cases l with
  | nil => rfl
  | cons q l => simp [minFold, List.foldl_cons, minO, listMin, ← minFold_some]

theorem maxFold_none (l : List ℚ) : maxFold none l = listMax l := by
  cases l with
  | nil => rfl
  | cons q l => simp [maxFold, List.foldl_cons, maxO, listMax, ← maxFold_some]

theorem foldl_bboxAddPoint (pts : List Point) (acc : BBoxAcc) :
    pts.foldl bboxAddPoint acc =
      ⟨minFold acc.min_x (pts.map fun p => p.1),
       minFold acc.min_y (pts.map fun p => p.2),
       maxFold acc.max_x (pts.map fun p => p.1),
       maxFold acc.max_y (pts.map fun p => p.2),
       acc.n_points + pts.length⟩ := by
  induction pts generalizing acc with
  | nil => simp [minFold, maxFold]
  | cons p pts ih =>
      rw [List.foldl_cons, ih]
      simp only [bboxAddPoint, List.map_cons, minFold, maxFold, List.foldl_cons,
        List.length_cons]
      congr 1
      omega

theorem foldl_bboxAddPoly (polys : List (Option Contour)) (acc : BBoxAcc) :
    polys.foldl bboxAddPoly acc = (allPoints polys).foldl bboxAddPoint acc := by
  induction polys generalizing acc with
  | nil => rfl
  | cons poly polys ih =>
      cases poly with
      | none => simp [List.foldl_cons, bboxAddPoly, allPoints, List.filterMap_cons, ih]
      | some pts =>
          simp [List.foldl_cons, bboxAddPoly, allPoints, List.filterMap_cons,
            List.flatten_cons, List.foldl_append, ih]

theorem foldl_min_le_init (l : List ℚ) (q : ℚ) : l.foldl min q ≤ q := by
  induction l generalizing q with
  | nil => exact le_refl q
  | cons r l ih =>
      rw [List.foldl_cons]
      exact (ih (min q r)).trans (min_le_left q r)

theorem foldl_max_init_le (l : List ℚ) (q : ℚ) : q ≤ l.foldl max q := by
  induction l generalizing q with
  | nil => exact le_refl q
  | cons r l ih =>
      rw [List.foldl_cons]
      exact (le_max_left q r).trans (ih (max q r))

theorem foldl_min_le_mem (l : List ℚ) (q r : ℚ) (hr : r ∈ l) : l.foldl min q ≤ r := by
  induction l generalizing q with
  | nil => cases hr
  | cons s l ih =>
      rw [List.foldl_cons]
      rcases List.mem_cons.1 hr with rfl | hr
      · exact (foldl_min_le_init l (min q r)).trans (min_le_right q r)
      · exact ih (min q s) hr

theorem foldl_mem_le_max (l : List ℚ) (q r : ℚ) (hr : r ∈ l) : r ≤ l.foldl max q := by
  induction l generalizing q with
  | nil => cases hr
  | cons s l ih =>
      rw [List.foldl_cons]
      rcases List.mem_cons.1 hr with rfl | hr
      · exact (le_max_right q r).trans (foldl_max_init_le l (max q r))
      · exact ih (max q s) hr

theorem foldl_min_mem (l : List ℚ) (q : ℚ) : l.foldl min q = q ∨ l.foldl min q ∈ l := by
  induction l generalizing q with
  | nil => exact Or.inl rfl
  | cons r l ih =>
      rw [List.foldl_cons]
      rcases ih (min q r) with h | h
      · rcases min_cases q r with ⟨he, _⟩ | ⟨he, _⟩
        · exact Or.inl (by rw [h, he])
        · exact Or.inr (by rw [h, he]; exact List.mem_cons_self r l)
      · exact Or.inr (List.mem_cons_of_mem r h)

theorem foldl_max_mem (l : List ℚ) (q : ℚ) : l.foldl max q = q ∨ l.foldl max q ∈ l := by
  induction l generalizing q with
  | nil => exact Or.inl rfl
  | cons r l ih =>
      rw [List.foldl_cons]
      rcases ih (max q r) with h | h
      · rcases max_cases q r with ⟨he, _⟩ | ⟨he, _⟩
        · exact Or.inl (by rw [h, he])
        · exact Or.inr (by rw [h, he]; exact List.mem_cons_self r l)
      · exact Or.inr (List.mem_cons_of_mem r h)

theorem listMin_spec (l : List ℚ) (m : ℚ) (h : listMin l = some m) :
    m ∈ l ∧ ∀ r ∈ l, m ≤ r := by
  cases l with
  | nil => cases h
  | cons q l =>
      have hm : l.foldl min q = m := by
        have := h
        unfold listMin at this
        exact Option.some.inj this
      constructor
      · rcases foldl_min_mem l q with h' | h'
        · rw [← hm, h']
          exact List.mem_cons_self q l
        · rw [← hm]
          exact List.mem_cons_of_mem q h'
      · intro r hr
        rcases List.mem_cons.1 hr with h' | hr
        · rw [← hm, h']
          exact foldl_min_le_init l q
        · rw [← hm]
          exact foldl_min_le_mem l q r hr

theorem listMax_spec (l : List ℚ) (m : ℚ) (h : listMax l = some m) :
    m ∈ l ∧ ∀ r ∈ l, r ≤ m := by
  cases l with
  | nil => cases h
  | cons q l =>
      have hm : l.foldl max q = m := by
        have := h
        unfold listMax at this
        exact Option.some.inj this
      constructor
      · rcases foldl_max_mem l q with h' | h'
        · rw [← hm, h']
          exact List.mem_cons_self q l
        · rw [← hm]
          exact List.mem_cons_of_mem q h'
      · intro r hr
        rcases List.mem_cons.1 hr with h' | hr
        · rw [← hm, h']
          exact foldl_max_init_le l q
        · rw [← hm]
          exact foldl_mem_le_max l q r hr

theorem bbox_from_polys_empty (polys : List (Option Contour))
    (h : allPoints polys = []) :
    bbox_from_polys polys = Except.error ("bbox_from_polys: empty polygon/contour list") := by
  unfold bbox_from_polys
  rw [foldl_bboxAddPoly, h]
  rfl

theorem bbox_from_polys_ok (polys : List (Option Contour)) (h : allPoints polys ≠ []) :
    ∃ a b c d, bbox_from_polys polys = Except.ok (a, b, c, d) ∧
      listMin ((allPoints polys).map fun p => p.1) = some a ∧
      listMin ((allPoints polys).map fun p => p.2) = some b ∧
      listMax ((allPoints polys).map fun p => p.1) = some c ∧
      listMax ((allPoints polys).map fun p => p.2) = some d := by
  obtain ⟨p, pts, hpts⟩ := List.exists_cons_of_ne_nil h
  refine ⟨(pts.map fun p => p.1).foldl min p.1, (pts.map fun p => p.2).foldl min p.2,
    (pts.map fun p => p.1).foldl max p.1, (pts.map fun p => p.2).foldl max p.2, ?hok, ?hma, ?hmb, ?hmc, ?hmd⟩
  · unfold bbox_from_polys
    rw [foldl_bboxAddPoly, hpts, foldl_bboxAddPoint]
    simp [bboxInit, List.map_cons, minFold_none, maxFold_none, listMin, listMax]
  · rw [hpts]
    simp [List.map_cons, listMin]
  · rw [hpts]
    simp [List.map_cons, listMin]
  · rw [hpts]
    simp [List.map_cons, listMax]
  · rw [hpts]
    simp [List.map_cons, listMax]

/-! ### Claim theorem C2 -/

/-- C2: `bbox_from_polys` fails (raises `ValueError`) exactly when the
total number of points across all supplied polygons is zero — it never
returns a box for empty input — and on any input with at least one
point it returns `(min_x, min_y, max_x, max_y)` over all points of all
polygons: each returned coordinate bounds every point and is attained
by some point. -/
theorem bbox_error_iff_no_points (polys : List (Option Contour)) :
    (bbox_from_polys polys = Except.error ("bbox_from_polys: empty polygon/contour list") ↔
      allPoints polys = []) ∧
    (allPoints polys ≠ [] →
      ∃ a b c d, bbox_from_polys polys = Except.ok (a, b, c, d) ∧
        (∀ p ∈ allPoints polys, a ≤ p.1 ∧ b ≤ p.2 ∧ p.1 ≤ c ∧ p.2 ≤ d) ∧
        (∃ p ∈ allPoints polys, p.1 = a) ∧ (∃ p ∈ allPoints polys, p.2 = b) ∧
        (∃ p ∈ allPoints polys, p.1 = c) ∧ (∃ p ∈ allPoints polys, p.2 = d)) := by
  constructor
  · constructor
    · intro herr
      by_contra hne
      obtain ⟨a, b, c, d, hok, _⟩ := bbox_from_polys_ok polys hne
      rw [hok] at herr
      cases herr
    · exact bbox_from_polys_empty polys
  · intro hne
    obtain ⟨a, b, c, d, hok, hma, hmb, hmc, hmd⟩ := bbox_from_polys_ok polys hne
    refine ⟨a, b, c, d, hok, ?bounds, ?ea, ?eb, ?ec, ?ed⟩
    · intro p hp
      exact ⟨(listMin_spec _ a hma).2 p.1 (List.mem_map_of_mem _ hp),
             (listMin_spec _ b hmb).2 p.2 (List.mem_map_of_mem _ hp),
             (listMax_spec _ c hmc).2 p.1 (List.mem_map_of_mem _ hp),
             (listMax_spec _ d hmd).2 p.2 (List.mem_map_of_mem _ hp)⟩
    · obtain ⟨p, hp, hpa⟩ := List.mem_map.1 (listMin_spec _ a hma).1
      exact ⟨p, hp, hpa⟩
    · obtain ⟨p, hp, hpb⟩ := List.mem_map.1 (listMin_spec _ b hmb).1
      exact ⟨p, hp, hpb⟩
    · obtain ⟨p, hp, hpc⟩ := List.mem_map.1 (listMax_spec _ c hmc).1
      exact ⟨p, hp, hpc⟩
    · obtain ⟨p, hp, hpd⟩ := List.mem_map.1 (listMax_spec _ d hmd).1
      exact ⟨p, hp, hpd⟩

/-- C2 witness: the characterization applied to a concrete two-polygon
input with three points. -/
theorem bbox_error_iff_no_points_witness :
    ∃ a b c d,
      bbox_from_polys [some [((0 : ℚ), (0 : ℚ)), (2, 3)], none, some [(1, 5)]] =
        Except.ok (a, b, c, d) ∧
      (∀ p ∈ allPoints [some [((0 : ℚ), (0 : ℚ)), (2, 3)], none, some [(1, 5)]],
        a ≤ p.1 ∧ b ≤ p.2 ∧ p.1 ≤ c ∧ p.2 ≤ d) ∧
      (∃ p ∈ allPoints [some [((0 : ℚ), (0 : ℚ)), (2, 3)], none, some [(1, 5)]], p.1 = a) ∧
      (∃ p ∈ allPoints [some [((0 : ℚ), (0 : ℚ)), (2, 3)], none, some [(1, 5)]], p.2 = b) ∧
      (∃ p ∈ allPoints [some [((0 : ℚ), (0 : ℚ)), (2, 3)], none, some [(1, 5)]], p.1 = c) ∧
      (∃ p ∈ allPoints [some [((0 : ℚ), (0 : ℚ)), (2, 3)], none, some [(1, 5)]], p.2 = d) :=
  (bbox_error_iff_no_points [some [((0 : ℚ), (0 : ℚ)), (2, 3)], none, some [(1, 5)]]).2
    (by decide)

/-! ### Helper lemmas: translation -/

theorem filterMap_optionMap (F : Contour → Contour) (polys : List (Option Contour)) :
    polys.filterMap (Option.map F) = (polys.filterMap id).map F := by
  induction polys with
  | nil => rfl
  | cons poly polys ih => cases poly <;> simp [List.filterMap_cons, ih]

theorem allPoints_translate (dx dy : ℚ) (polys : List (Option Contour)) :
    allPoints (translate_polys dx dy polys) =
      (allPoints polys).map fun p => (p.1 + dx, p.2 + dy) := by
  unfold allPoints translate_polys
  rw [List.filterMap_map]
  have hid : (id ∘ Option.map (List.map fun p : Point => (p.1 + dx, p.2 + dy))) =
      Option.map (List.map fun p : Point => (p.1 + dx, p.2 + dy)) := rfl
  rw [hid, filterMap_optionMap]
  exact (List.map_flatten _ _).symm

theorem foldl_min_map_add (d : ℚ) (l : List ℚ) (q : ℚ) :
    (l.map fun r => r + d).foldl min (q + d) = l.foldl min q + d := by
  induction l generalizing q with
  | nil => rfl
  | cons r l ih =>
      rw [List.map_cons, List.foldl_cons, List.foldl_cons, min_add_add_right]
      exact ih (min q r)

theorem foldl_max_map_add (d : ℚ) (l : List ℚ) (q : ℚ) :
    (l.map fun r => r + d).foldl max (q + d) = l.foldl max q + d := by
  induction l generalizing q with
  | nil => rfl
  | cons r l ih =>
      rw [List.map_cons, List.foldl_cons, List.foldl_cons, max_add_add_right]
      exact ih (max q r)

theorem listMin_map_add (d : ℚ) (l : List ℚ) :
    listMin (l.map fun r => r + d) = (listMin l).map fun r => r + d := by
  cases l with
  | nil => rfl
  | cons q l => simp [listMin, List.map_cons, foldl_min_map_add]

theorem listMax_map_add (d : ℚ) (l : List ℚ) :
    listMax (l.map fun r => r + d) = (listMax l).map fun r => r + d := by
  cases l with
  | nil => rfl
  | cons q l => simp [listMax, List.map_cons, foldl_max_map_add]

/-! ### Claim theorem C8 -/

/-- C8: `bbox_from_polys` is translation-equivariant — for every
contour set with at least one point and every offset `(dx, dy)`, the
box of the translated set is the original box with `dx` added to the
x-extrema and `dy` added to the y-extrema, exactly. -/
theorem bbox_translation_equivariant (polys : List (Option Contour)) (dx dy : ℚ)
    (h : allPoints polys ≠ []) :
    ∃ a b c d, bbox_from_polys polys = Except.ok (a, b, c, d) ∧
      bbox_from_polys (translate_polys dx dy polys) =
        Except.ok (a + dx, b + dy, c + dx, d + dy) := by
  obtain ⟨a, b, c, d, hok, hma, hmb, hmc, hmd⟩ := bbox_from_polys_ok polys h
  have htr := allPoints_translate dx dy polys
  have h' : allPoints (translate_polys dx dy polys) ≠ [] := by
    rw [htr]
    simpa using h
  obtain ⟨a', b', c', d', hok', hma', hmb', hmc', hmd'⟩ :=
    bbox_from_polys_ok (translate_polys dx dy polys) h'
  have hxs : ((allPoints (translate_polys dx dy polys)).map fun p => p.1) =
      ((allPoints polys).map fun p => p.1).map fun r => r + dx := by
    rw [htr, List.map_map, List.map_map]
    rfl
  have hys : ((allPoints (translate_polys dx dy polys)).map fun p => p.2) =
      ((allPoints polys).map fun p => p.2).map fun r => r + dy := by
    rw [htr, List.map_map, List.map_map]
    rfl
  have ea : a' = a + dx := by
    have := hma'
    rw [hxs, listMin_map_add, hma] at this
    exact (Option.some.inj this).symm
  have eb : b' = b + dy := by
    have := hmb'
    rw [hys, listMin_map_add, hmb] at this
    exact (Option.some.inj this).symm
  have ec : c' = c + dx := by
    have := hmc'
    rw [hxs, listMax_map_add, hmc] at this
    exact (Option.some.inj this).symm
  have ed : d' = d + dy := by
    have := hmd'
    rw [hys, listMax_map_add, hmd] at this
    exact (Option.some.inj this).symm
  refine ⟨a, b, c, d, hok, ?htrans⟩
  rw [← ea, ← eb, ← ec, ← ed]
  exact hok'

/-- C8 witness: translation equivariance applied to a concrete
one-polygon input and the offset `(10, 20)`. -/
theorem bbox_translation_equivariant_witness :
    ∃ a b c d,
      bbox_from_polys [some [((0 : ℚ), (0 : ℚ)), (2, 3)]] = Except.ok (a, b, c, d) ∧
      bbox_from_polys (translate_polys 10 20 [some [((0 : ℚ), (0 : ℚ)), (2, 3)]]) =
        Except.ok (a + 10, b + 20, c + 10, d + 20) :=
  bbox_translation_equivariant [some [((0 : ℚ), (0 : ℚ)), (2, 3)]] 10 20 (by decide)

/-! ### Helper lemma: Python max keeps the first strict maximum -/

theorem foldl_pyMaxStep_spec (key : α → ℚ) (xs : List α) (b : α) :
    (xs.foldl (pyMaxStep key) b = b ∧ ∀ a ∈ xs, key a ≤ key b) ∨
    (∃ i, ∃ hi : i < xs.length,
      xs.foldl (pyMaxStep key) b = xs.get ⟨i, hi⟩ ∧
      key b < key (xs.get ⟨i, hi⟩) ∧
      (∀ a ∈ xs, key a ≤ key (xs.get ⟨i, hi⟩)) ∧
      (∀ j, ∀ hj : j < xs.length, j < i →
        key (xs.get ⟨j, hj⟩) < key (xs.get ⟨i, hi⟩))) := by
  induction xs generalizing b with
  | nil => exact Or.inl ⟨rfl, fun a ha => absurd ha (List.not_mem_nil a)⟩
  | cons x xs ih =>
      rw [List.foldl_cons]
      by_cases hx : key b < key x
      · have hstep : pyMaxStep key b x = x := if_pos hx
        rw [hstep]
        rcases ih x with ⟨heq, hle⟩ | ⟨i, hi, heq, hlt, hle, hfirst⟩
        · refine Or.inr ⟨0, Nat.succ_pos _, heq, hx, ?_, ?_⟩
          · intro a ha
            rcases List.mem_cons.1 ha with h' | ha
            · rw [h']
              exact le_refl _
            · exact hle a ha
          · intro j hj hj0
            exact absurd hj0 (Nat.not_lt_zero j)
        · refine Or.inr ⟨i + 1, Nat.succ_lt_succ hi, heq, hx.trans hlt, ?_, ?_⟩
          · intro a ha
            rcases List.mem_cons.1 ha with h' | ha
            · rw [h']
              exact le_of_lt hlt
            · exact hle a ha
          · intro j hj hji
            cases j with
            | zero => exact hlt
            | succ j' => exact hfirst j' (Nat.lt_of_succ_lt_succ hj) (Nat.lt_of_succ_lt_succ hji)
      · have hstep : pyMaxStep key b x = b := if_neg hx
        rw [hstep]
        rcases ih b with ⟨heq, hle⟩ | ⟨i, hi, heq, hlt, hle, hfirst⟩
        · refine Or.inl ⟨heq, ?_⟩
          intro a ha
          rcases List.mem_cons.1 ha with h' | ha
          · rw [h']
            exact le_of_not_lt hx
          · exact hle a ha
        · refine Or.inr ⟨i + 1, Nat.succ_lt_succ hi, heq, hlt, ?_, ?_⟩
          · intro a ha
            rcases List.mem_cons.1 ha with h' | ha
            · rw [h']
              exact (le_of_not_lt hx).trans (le_of_lt hlt)
            · exact hle a ha
          · intro j hj hji
            cases j with
            | zero => exact lt_of_le_of_lt (le_of_not_lt hx) hlt
            | succ j' => exact hfirst j' (Nat.lt_of_succ_lt_succ hj) (Nat.lt_of_succ_lt_succ hji)

/-! ### Claim theorem C1 -/

/-- C1: on a non-empty traced contour set the region-selection stage
keeps exactly one polygon — the simplified maximum-area contour, with
ties resolved in favor of the first-encountered contour — both as the
outline layer and as the input of the silhouette-mask fill; every
other contour is absent from both. -/
theorem outline_phase_selects_first_largest (ops : CvOps) (sf : ℚ)
    (cnts : List Contour) (h : cnts ≠ []) :
    ∃ i, ∃ hi : i < cnts.length,
      outline_phase ops sf cnts =
        ([simplify_contour ops (cnts.get ⟨i, hi⟩) sf],
         [simplify_contour ops (cnts.get ⟨i, hi⟩) sf]) ∧
      (∀ j, ∀ hj : j < cnts.length,
        contourArea (cnts.get ⟨j, hj⟩) ≤ contourArea (cnts.get ⟨i, hi⟩)) ∧
      (∀ j, ∀ hj : j < cnts.length, j < i →
        contourArea (cnts.get ⟨j, hj⟩) < contourArea (cnts.get ⟨i, hi⟩)) := by
  cases cnts with
  | nil => exact absurd rfl h
  | cons c cs =>
      rcases foldl_pyMaxStep_spec contourArea cs c with
        ⟨heq, hle⟩ | ⟨i, hi, heq, hlt, hle, hfirst⟩
      · refine ⟨0, Nat.succ_pos _, ?_, ?_, ?_⟩
        · simp only [outline_phase, pyMax, heq]
          rfl
        · intro j hj
          cases j with
          | zero => exact le_refl _
          | succ j' =>
              exact hle (cs.get ⟨j', Nat.lt_of_succ_lt_succ hj⟩)
                (List.get_mem cs j' (Nat.lt_of_succ_lt_succ hj))
        · intro j hj hj0
          exact absurd hj0 (Nat.not_lt_zero j)
      · refine ⟨i + 1, Nat.succ_lt_succ hi, ?_, ?_, ?_⟩
        · simp only [outline_phase, pyMax, heq]
          rfl
        · intro j hj
          cases j with
          | zero => exact le_of_lt hlt
          | succ j' =>
              exact hle (cs.get ⟨j', Nat.lt_of_succ_lt_succ hj⟩)
                (List.get_mem cs j' (Nat.lt_of_succ_lt_succ hj))
        · intro j hj hji
          cases j with
          | zero => exact hlt
          | succ j' => exact hfirst j' (Nat.lt_of_succ_lt_succ hj) (Nat.lt_of_succ_lt_succ hji)

/-- C1 witness: selection applied to a concrete two-contour trace. -/
theorem outline_phase_selects_first_largest_witness :
    ∃ i, ∃ hi : i < ([[((0 : ℚ), (0 : ℚ)), (1, 0), (0, 1)],
        [((0 : ℚ), (0 : ℚ)), (3, 0), (0, 3)]] : List Contour).length,
      outline_phase sampleOps 1
          [[((0 : ℚ), (0 : ℚ)), (1, 0), (0, 1)], [((0 : ℚ), (0 : ℚ)), (3, 0), (0, 3)]] =
        ([simplify_contour sampleOps
            (([[((0 : ℚ), (0 : ℚ)), (1, 0), (0, 1)],
               [((0 : ℚ), (0 : ℚ)), (3, 0), (0, 3)]] : List Contour).get ⟨i, hi⟩) 1],
         [simplify_contour sampleOps
            (([[((0 : ℚ), (0 : ℚ)), (1, 0), (0, 1)],
               [((0 : ℚ), (0 : ℚ)), (3, 0), (0, 3)]] : List Contour).get ⟨i, hi⟩) 1]) ∧
      (∀ j, ∀ hj : j < ([[((0 : ℚ), (0 : ℚ)), (1, 0), (0, 1)],
          [((0 : ℚ), (0 : ℚ)), (3, 0), (0, 3)]] : List Contour).length,
        contourArea (([[((0 : ℚ), (0 : ℚ)), (1, 0), (0, 1)],
            [((0 : ℚ), (0 : ℚ)), (3, 0), (0, 3)]] : List Contour).get ⟨j, hj⟩) ≤
          contourArea (([[((0 : ℚ), (0 : ℚ)), (1, 0), (0, 1)],
            [((0 : ℚ), (0 : ℚ)), (3, 0), (0, 3)]] : List Contour).get ⟨i, hi⟩)) ∧
      (∀ j, ∀ hj : j < ([[((0 : ℚ), (0 : ℚ)), (1, 0), (0, 1)],
          [((0 : ℚ), (0 : ℚ)), (3, 0), (0, 3)]] : List Contour).length, j < i →
        contourArea (([[((0 : ℚ), (0 : ℚ)), (1, 0), (0, 1)],
            [((0 : ℚ), (0 : ℚ)), (3, 0), (0, 3)]] : List Contour).get ⟨j, hj⟩) <
          contourArea (([[((0 : ℚ), (0 : ℚ)), (1, 0), (0, 1)],
            [((0 : ℚ), (0 : ℚ)), (3, 0), (0, 3)]] : List Contour).get ⟨i, hi⟩)) :=
  outline_phase_selects_first_largest sampleOps 1
    [[((0 : ℚ), (0 : ℚ)), (1, 0), (0, 1)], [((0 : ℚ), (0 : ℚ)), (3, 0), (0, 3)]]
    (by decide)

/-! ### Helper lemmas: path serialization -/

theorem joinSp_foldl_length (as : List String) (acc : String) :
    acc.length ≤ (as.foldl (fun acc s => acc ++ " " ++ s) acc).length := by
  induction as generalizing acc with
  | nil => exact le_refl _
  | cons s as ih =>
      rw [List.foldl_cons]
      refine le_trans ?_ (ih (acc ++ " " ++ s))
      rw [String.length_append, String.length_append]
      omega

theorem joinSp_ne_empty (a : String) (as : List String) (ha : a ≠ "") :
    joinSp (a :: as) ≠ "" := by
  intro hcontra
  have h1 : a.length ≤ (joinSp (a :: as)).length := joinSp_foldl_length as a
  rw [hcontra] at h1
  have h2 : a.length = 0 := Nat.le_zero.1 h1
  exact ha (String.ext (List.length_eq_zero.1 h2))

theorem contour_to_path_d_ne_empty (c : Contour) (hc : c ≠ []) :
    contour_to_path_d c ≠ "" := by
  cases c with
  | nil => exact absurd rfl hc
  | cons p rest =>
      show joinSp (("M " ++ fmt2 p.1 ++ "," ++ fmt2 p.2) ::
        (rest.map (fun q => "L " ++ fmt2 q.1 ++ "," ++ fmt2 q.2) ++ ["Z"])) ≠ ""
      refine joinSp_ne_empty _ _ ?_
      intro h
      have hl : ("M " ++ fmt2 p.1 ++ "," ++ fmt2 p.2).length = 0 := by
        rw [h]
        rfl
      rw [String.length_append, String.length_append, String.length_append] at hl
      have hM : ("M " : String).length = 2 := rfl
      omega

theorem contours_to_compound_path_d_eq (cs : List Contour) (h : ∀ c ∈ cs, c ≠ []) :
    contours_to_compound_path_d cs = joinSp (cs.map contour_to_path_d) := by
  unfold contours_to_compound_path_d
  congr 1
  refine List.filter_eq_self.2 ?_
  intro d hd
  obtain ⟨c, hc, rfl⟩ := List.mem_map.1 hd
  simpa using contour_to_path_d_ne_empty c (h c hc)

theorem write_svg_detail_evenodd_paths (w h : ℕ) (cs : List Contour) :
    (write_svg_detail_evenodd w h cs).paths =
      if contours_to_compound_path_d cs = "" then []
      else [⟨contours_to_compound_path_d cs, "black", "none", some ("evenodd")⟩] := rfl

/-! ### Claim theorem C9 -/

/-- C9: the standalone detail document holds all (non-degenerate)
detail contours as subpaths of one single compound path, joined in
input order, rendered filled black with no stroke and the even-odd
fill rule; an empty contour set yields a document with no path
element at all. -/
theorem detail_doc_single_evenodd_compound (w h : ℕ) (contours : List Contour)
    (hne : ∀ c ∈ contours, c ≠ []) :
    (write_svg_detail_evenodd w h contours).paths =
      if contours = [] then []
      else [⟨joinSp (contours.map contour_to_path_d), "black", "none", some ("evenodd")⟩] := by
  rw [write_svg_detail_evenodd_paths, contours_to_compound_path_d_eq contours hne]
  cases contours with
  | nil => rfl
  | cons c cs =>
      have hd : joinSp (contour_to_path_d c :: cs.map contour_to_path_d) ≠ "" :=
        joinSp_ne_empty _ _ (contour_to_path_d_ne_empty c (hne c (List.mem_cons_self c cs)))
      simp [List.map_cons, hd]

/-- C9 witness: the detail serializer applied to one concrete
triangle contour. -/
theorem detail_doc_single_evenodd_compound_witness :
    (write_svg_detail_evenodd 4 4 [[((0 : ℚ), (0 : ℚ)), (2, 0), (2, 2)]]).paths =
      if ([[((0 : ℚ), (0 : ℚ)), (2, 0), (2, 2)]] : List Contour) = [] then []
      else [⟨joinSp (([[((0 : ℚ), (0 : ℚ)), (2, 0), (2, 2)]] : List Contour).map contour_to_path_d),
              "black", "none", some ("evenodd")⟩] :=
  detail_doc_single_evenodd_compound 4 4 [[((0 : ℚ), (0 : ℚ)), (2, 0), (2, 2)]] (by decide)

/-! ### Claim C3: empty-foreground behavior of main -/

theorem shape_mask_whiteImg_all_zero : ∀ x y, shape_mask whiteImg 180 x y = 0 :=
  fun _ _ => rfl

/-- C3 counterexample: for the all-white image at the default
threshold 180 (binarization produces no foreground pixel, see
`shape_mask_whiteImg_all_zero`, so the traced outline set is empty)
the run does not complete: both warnings are emitted and all three
documents are serialized, but the metadata step then aborts with the
uncaught `ValueError` raised by `bbox_from_polys`, contradicting
"proceeds without crashing". -/
theorem main_all_white_aborts_at_bbox_cex :
    (runMain sampleOps whiteImg 4 4 (cexArgs 1)).warnings =
      ["WARNING: No outline contours found (no black region?)",
       "WARNING: No detail contours found (white inside outline)."] ∧
    (runMain sampleOps whiteImg 4 4 (cexArgs 1)).meta =
      Except.error ("bbox_from_polys: empty polygon/contour list") := by decide

/-- C3 amended: when the traced outline set is empty (the degenerate
all-background trace produced by a foreground-free binarization), the
run emits the no-outline warning first, serializes all three documents
with an empty outline layer, and then aborts at the metadata step with
the uncaught `ValueError` of `bbox_from_polys` instead of finishing. -/
theorem main_empty_foreground_warns_then_aborts (ops : CvOps) (img : Grid) (w h : ℕ)
    (a : Args) (htrace : traced_outline ops img a = []) :
    (runMain ops img w h a).warnings.head? =
      some ("WARNING: No outline contours found (no black region?)") ∧
    (runMain ops img w h a).combinedDoc =
      create_svg w h [] (detail_phase ops (traced_detail ops img a)) ∧
    (runMain ops img w h a).outlineDoc = write_svg_single_group w h [] ∧
    (runMain ops img w h a).detailDoc =
      write_svg_detail_evenodd w h (detail_phase ops (traced_detail ops img a)) ∧
    (runMain ops img w h a).meta =
      Except.error ("bbox_from_polys: empty polygon/contour list") := by
  have hop : outline_phase ops a.simplify (traced_outline ops img a) = ([], []) := by
    rw [htrace]
    rfl
  refine ⟨?hwarn, ?hcomb, ?hout, ?hdet, ?hmeta⟩
  · show ((if traced_outline ops img a = [] then
        ["WARNING: No outline contours found (no black region?)"] else []) ++ _).head? = _
    rw [htrace]
    rfl
  · show create_svg w h (outline_phase ops a.simplify (traced_outline ops img a)).1
        (detail_phase ops (traced_detail ops img a)) = _
    rw [hop]
  · show write_svg_single_group w h
        (outline_phase ops a.simplify (traced_outline ops img a)).1 = _
    rw [hop]
  · rfl
  · show (bbox_from_polys
        ((outline_phase ops a.simplify (traced_outline ops img a)).1.map some)).map
          (fun b => (b.2.2.1 - b.1, b.2.2.2 - b.2.1)) = _
    rw [hop]
    rfl

/-- C3 amended witness: the amended statement applied to the concrete
all-white run. -/
theorem main_empty_foreground_warns_then_aborts_witness :
    (runMain sampleOps whiteImg 4 4 (cexArgs 1)).warnings.head? =
      some ("WARNING: No outline contours found (no black region?)") ∧
    (runMain sampleOps whiteImg 4 4 (cexArgs 1)).combinedDoc =
      create_svg 4 4 []
        (detail_phase sampleOps (traced_detail sampleOps whiteImg (cexArgs 1))) ∧
    (runMain sampleOps whiteImg 4 4 (cexArgs 1)).outlineDoc =
      write_svg_single_group 4 4 [] ∧
    (runMain sampleOps whiteImg 4 4 (cexArgs 1)).detailDoc =
      write_svg_detail_evenodd 4 4
        (detail_phase sampleOps (traced_detail sampleOps whiteImg (cexArgs 1))) ∧
    (runMain sampleOps whiteImg 4 4 (cexArgs 1)).meta =
      Except.error ("bbox_from_polys: empty polygon/contour list") :=
  main_empty_foreground_warns_then_aborts sampleOps whiteImg 4 4 (cexArgs 1) (by decide)

/-! ### Claim C10: detail layer and the simplify factor -/

/-- C10 counterexample: two runs on the same image differing only in
`--simplify` (0 vs 1) produce different detail layers.  The aggressive
factor collapses the selected outline polygon to a 2-point degenerate
line whose fill set is empty, so the silhouette mask gates away all
interior white detail; the gentle factor keeps the polygon and with
it the interior detail contour. -/
theorem detail_layer_depends_on_simplify_cex :
    (runMain sampleOps sqImg 5 5 (cexArgs 0)).detailDoc ≠
      (runMain sampleOps sqImg 5 5 (cexArgs 1)).detailDoc := by
  have htr0 : traced_outline sampleOps sqImg (cexArgs 0) =
      [[(0, 0), (4, 0), (4, 4), (0, 4)]] := by decide
  have htr1 : traced_outline sampleOps sqImg (cexArgs 1) =
      [[(0, 0), (4, 0), (4, 4), (0, 4)]] := by decide
  have hop0 : outline_phase sampleOps (cexArgs 0).simplify
      (traced_outline sampleOps sqImg (cexArgs 0)) =
      ([[(0, 0), (4, 0), (4, 4), (0, 4)]], [[(0, 0), (4, 0), (4, 4), (0, 4)]]) := by
    rw [htr0]
    simp only [outline_phase, pyMax, List.foldl_nil, simplify_contour, sampleOps, cexArgs]
    norm_num
  have hop1 : outline_phase sampleOps (cexArgs 1).simplify
      (traced_outline sampleOps sqImg (cexArgs 1)) =
      ([[(0, 0), (4, 0)]], [[(0, 0), (4, 0)]]) := by
    rw [htr1]
    simp only [outline_phase, pyMax, List.foldl_nil, simplify_contour, sampleOps, cexArgs]
    norm_num
  have htrdet0 : traced_detail sampleOps sqImg (cexArgs 0) =
      [[(1, 1), (3, 1), (3, 3), (1, 3)]] := by
    unfold traced_detail
    rw [hop0]
    decide
  have htrdet1 : traced_detail sampleOps sqImg (cexArgs 1) = [] := by
    unfold traced_detail
    rw [hop1]
    decide
  have harea : contourArea [((1 : ℚ), (1 : ℚ)), (3, 1), (3, 3), (1, 3)] = 4 := by
    norm_num [contourArea, shoelace]
  have hdet0 : detail_phase sampleOps [[(1, 1), (3, 1), (3, 3), (1, 3)]] =
      [[(1, 1), (3, 1), (3, 3), (1, 3)]] := by
    simp only [detail_phase, List.filter, harea, simplify_contour, sampleOps, List.map]
    norm_num
  have hdoc0 : (runMain sampleOps sqImg 5 5 (cexArgs 0)).detailDoc =
      write_svg_detail_evenodd 5 5 [[(1, 1), (3, 1), (3, 3), (1, 3)]] := by
    show write_svg_detail_evenodd 5 5
      (detail_phase sampleOps (traced_detail sampleOps sqImg (cexArgs 0))) = _
    rw [htrdet0, hdet0]
  have hdoc1 : (runMain sampleOps sqImg 5 5 (cexArgs 1)).detailDoc =
      write_svg_detail_evenodd 5 5 [] := by
    show write_svg_detail_evenodd 5 5
      (detail_phase sampleOps (traced_detail sampleOps sqImg (cexArgs 1))) = _
    rw [htrdet1]
    rfl
  rw [hdoc0, hdoc1]
  decide

/-- C10 amended: the detail filter simplifies every kept contour with
the fixed factor 0.002, and the user `--simplify` factor reaches the
detail layer only through the traced detail contours (via the
silhouette fill of the simplified outline): whenever the traced
detail sets of two runs differing only in `--simplify` coincide, the
detail layers are identical — but they are not guaranteed identical
in general. -/
theorem detail_fixed_simplify_trace_determined (ops : CvOps) (img : Grid) (w h : ℕ)
    (a : Args) (s₁ s₂ : ℚ)
    (htr : traced_detail ops img {a with simplify := s₁} =
      traced_detail ops img {a with simplify := s₂}) :
    (runMain ops img w h {a with simplify := s₁}).detailDoc =
      (runMain ops img w h {a with simplify := s₂}).detailDoc ∧
    (runMain ops img w h {a with simplify := s₁}).detailDoc =
      write_svg_detail_evenodd w h
        (((traced_detail ops img {a with simplify := s₁}).filter
            fun c => ¬ contourArea c < 2).map
          fun c => simplify_contour ops c (0.002 : ℚ)) := by
  constructor
  · show write_svg_detail_evenodd w h
        (detail_phase ops (traced_detail ops img {a with simplify := s₁})) =
      write_svg_detail_evenodd w h
        (detail_phase ops (traced_detail ops img {a with simplify := s₂}))
    rw [htr]
  · rfl

/-- C10 amended witness: the amended statement applied to an all-white
run where both traced detail sets are empty. -/
theorem detail_fixed_simplify_trace_determined_witness :
    (runMain sampleOps whiteImg 4 4 {cexArgs 1 with simplify := (1 : ℚ)}).detailDoc =
      (runMain sampleOps whiteImg 4 4 {cexArgs 1 with simplify := (2 : ℚ)}).detailDoc ∧
    (runMain sampleOps whiteImg 4 4 {cexArgs 1 with simplify := (1 : ℚ)}).detailDoc =
      write_svg_detail_evenodd 4 4
        (((traced_detail sampleOps whiteImg {cexArgs 1 with simplify := (1 : ℚ)}).filter
            fun c => ¬ contourArea c < 2).map
          fun c => simplify_contour sampleOps c (0.002 : ℚ)) :=
  detail_fixed_simplify_trace_determined sampleOps whiteImg 4 4 (cexArgs 1) 1 2 (by decide)
